import Mathlib

/-!
Verification of core behaviors of the aisynphys / multipatch_analysis
pipeline infrastructure, shallowly embedded from the Python sources:

* `multipatch_analysis/database/database.py` — engine/session management
  across forks, `TableGroup.create_tables`, and the streaming sqlite
  exporter (`bake_sqlite` / `TableReadThread`).
* `multipatch_analysis/pipeline/multipatch/experiment.py` — the
  `ready_jobs` readiness computation and `dependent_job_ids` cascading
  invalidation of the experiment pipeline module.

Mutable module globals become an explicit state record threaded through
the functions; exceptions become `Except`; database rows become lists of
records.
-/

/-! ## Engine / session manager (database.py lines 205-287)

Module globals `engine_ro`, `engine_rw`, `engine_pid`,
`_sessionmaker_ro`, `_sessionmaker_rw` become fields of `EngineState`.
Engines are identified by `Nat` ids drawn from a freshness counter
`next_id`, standing for the distinct objects `create_engine` returns.
The configuration flag `has_rw` stands for `db_address_rw is not None`.
-/

structure EngineState where
  engine_ro : Option Nat
  engine_rw : Option Nat
  engine_pid : Option Nat
  smaker_ro : Bool
  smaker_rw : Bool
  next_id : Nat
deriving Repr, DecidableEq

/-- `dispose_engines()`: dispose each engine that exists (clearing its
sessionmaker with it) and clear the stored pid. -/
def dispose_engines (s : EngineState) : EngineState :=
  let s1 := if s.engine_ro.isSome then
      { s with engine_ro := none, smaker_ro := false } else s
  let s2 := if s1.engine_rw.isSome then
      { s1 with engine_rw := none, smaker_rw := false } else s1
  { s2 with engine_pid := none }

/-- `init_engines()`: dispose any current engines, then construct a fresh
read-only engine, a fresh read-write engine when `db_address_rw` is
configured, and record the current process id. -/
def init_engines (has_rw : Bool) (pid : Nat) (s : EngineState) : EngineState :=
  let s1 := dispose_engines s
  if has_rw then
    { s1 with engine_ro := some s1.next_id, engine_rw := some (s1.next_id + 1),
              engine_pid := some pid, next_id := s1.next_id + 2 }
  else
    { s1 with engine_ro := some s1.next_id, engine_rw := none,
              engine_pid := some pid, next_id := s1.next_id + 1 }

/-- `get_engines()`: if the current pid differs from `engine_pid`, dispose
the engines (fork detected); then initialize engines if none exist;
return the (ro, rw) pair together with the updated globals. -/
def get_engines (has_rw : Bool) (pid : Nat) (s : EngineState) :
    (Option Nat × Option Nat) × EngineState :=
  let s1 := if s.engine_pid ≠ some pid then dispose_engines s else s
  let s2 := if s1.engine_ro = none then init_engines has_rw pid s1 else s1
  ((s2.engine_ro, s2.engine_rw), s2)

/-- Errors raised by the database layer. -/
inductive DBError where
  | noWriteAccess : DBError
  | schemaMissing : String → DBError
deriving Repr, DecidableEq

/-- `Session(readonly)`: refresh engines via `get_engines()`, then build a
session bound to the read-only engine, or raise `RuntimeError` ("no write
access engine is defined") when a read-write session is requested but no
read-write engine exists.  A session is modelled as the engine id it is
bound to together with its readonly flag. -/
def Session (has_rw : Bool) (pid : Nat) (readonly : Bool) (s : EngineState) :
    Except DBError (Option Nat × Bool) × EngineState :=
  let r := get_engines has_rw pid s
  let s1 := r.2
  if readonly then
    (Except.ok (r.1.1, true), { s1 with smaker_ro := true })
  else
    match r.1.2 with
    | none => (Except.error DBError.noWriteAccess, s1)
    | some _ => (Except.ok (r.1.2, false), { s1 with smaker_rw := true })

/-- Well-formedness of the engine globals, maintained by every operation:
engine ids are below the freshness counter, and a stored pid implies a
live read-only engine (`engine_pid` is only ever set by `init_engines`,
which also sets `engine_ro`). -/
def EngineState.wf (s : EngineState) : Prop :=
  (∀ e ∈ s.engine_ro, e < s.next_id) ∧
  (∀ e ∈ s.engine_rw, e < s.next_id) ∧
  (s.engine_pid.isSome → s.engine_ro.isSome)

instance (s : EngineState) : Decidable s.wf := by
  unfold EngineState.wf; infer_instance

/-! ## TableGroup.create_tables (database.py lines 85-95)

A table group is the ordered list of its schema keys.  The read-only
database is the list of table names `engine_ro.table_names()` reports.
The result records the DDL issued: `Except.ok batch` where `batch` is
the list of tables created in one `metadata.create_all` call (empty on
the read-only verification path), or `Except.error` for the raised
exception. -/

def TableGroup.create_tables (schemas : List String) (engine_rw : Option Nat)
    (existing : List String) : Except DBError (List String) :=
  match engine_rw with
  | none =>
    match schemas.find? (fun k => !(existing.contains k)) with
    | some k => Except.error (DBError.schemaMissing k)
    | none => Except.ok []
  | some _ => Except.ok schemas

/-! ## Streaming bulk exporter (database.py lines 378-453)

`TableReadThread` reads a table chunkwise.  A table is a list of
`(id, data)` rows; `tableMaxId` is the `select max(table.id)` the
constructor issues once, `chunkStarts` is Python's
`range(0, max_id, chunksize)`, and `rangeQuery` is the filtered query
`id >= i and id < i + chunksize` issued per chunk. -/

def tableMaxId (rows : List (Nat × Nat)) : Option Nat :=
  rows.foldl (fun m r =>
    match m with
    | none => some r.1
    | some v => some (max v r.1)) none

def chunkStarts (max_id chunksize : Nat) : List Nat :=
  (List.range ((max_id + chunksize - 1) / chunksize)).map (· * chunksize)

def rangeQuery (rows : List (Nat × Nat)) (i chunksize : Nat) : List (Nat × Nat) :=
  rows.filter (fun r => i ≤ r.1 && r.1 < i + chunksize)

/-- The sequence of SQL operations a `TableReadThread` issues against the
source table: the constructor's single max-id query, then (unless
`max_id` is `None`, which makes `run` raise on `range(0, None, ...)`)
one range query per chunk start, each covering `[i, i+chunksize)`. -/
inductive DBOp where
  | maxId : DBOp
  | range : Nat → Nat → DBOp
deriving Repr, DecidableEq

def TableReadThread.ops (rows : List (Nat × Nat)) (chunksize : Nat) : List DBOp :=
  DBOp.maxId ::
    (match tableMaxId rows with
     | none => []
     | some m => (chunkStarts m chunksize).map (fun i => DBOp.range i (i + chunksize)))

/-- `TableReadThread.run`: the list of messages the producer thread puts
on the queue (each batch wrapped in `some`, the final end-of-stream
sentinel as `none`), paired with whether `run` completed normally.
When the table is empty the max-id query returned `None`, so
`range(0, None, chunksize)` raises `TypeError` before anything is
enqueued. -/
def TableReadThread.run (rows : List (Nat × Nat)) (chunksize : Nat) :
    List (Option (List (Nat × Nat))) × Bool :=
  match tableMaxId rows with
  | none => ([], false)
  | some m =>
    (((chunkStarts m chunksize).map (fun i => some (rangeQuery rows i chunksize)))
      ++ [none], true)

/-- The consumer loop in `TableReadThread.__iter__` terminates normally
exactly when the `None` sentinel appears among the queued messages;
otherwise its blocking `queue.get()` waits forever. -/
def consumerTerminates (msgs : List (Option (List (Nat × Nat)))) : Bool :=
  msgs.contains none

/-- All records the consumer of a `TableReadThread` receives, in order:
the concatenation of the queued batches.  This is what `bake_sqlite`
inserts into the destination table.  `none` when `run` raised before
queueing the sentinel. -/
def TableReadThread.iterOutput (rows : List (Nat × Nat)) (chunksize : Nat) :
    Option (List (Nat × Nat)) :=
  match tableMaxId rows with
  | none => none
  | some m => some ((chunkStarts m chunksize).map (fun i => rangeQuery rows i chunksize)).flatten

/-- The concrete source table of the C4 scenario: 2500 rows with ids
1..2500, each row's payload equal to its id. -/
def srcTable (n : Nat) : List (Nat × Nat) := (List.range n).map (fun i => (i + 1, i + 1))

def srcTable2500 : List (Nat × Nat) := srcTable 2500

/-! ## Producer/consumer interleaving for the bounded export queue

`TableReadThread` pushes batches through `queue.Queue(maxsize=5)`; `put`
blocks while the queue is full, `get` blocks while it is empty.  The
interleaving of the producer thread and the consumer is a transition
system: `pending` batches the producer still has to put, `queued`
batches sitting unconsumed in the queue, `consumed` batches the consumer
has popped.  A `put` step is only enabled while `queued < cap` — that is
exactly the blocking behavior of `put` on a bounded queue. -/

structure ExportState where
  pending : Nat
  queued : Nat
  consumed : Nat
deriving Repr, DecidableEq

inductive ExportStep (cap : Nat) : ExportState → ExportState → Prop where
  | put : ∀ s : ExportState, 0 < s.pending → s.queued < cap →
      ExportStep cap s ⟨s.pending - 1, s.queued + 1, s.consumed⟩
  | get : ∀ s : ExportState, 0 < s.queued →
      ExportStep cap s ⟨s.pending, s.queued - 1, s.consumed + 1⟩

inductive ExportReachable (cap : Nat) (init : ExportState) : ExportState → Prop where
  | refl : ExportReachable cap init init
  | step : ∀ {s t : ExportState}, ExportReachable cap init s →
      ExportStep cap s t → ExportReachable cap init t

/-! ## ready_jobs (pipeline/multipatch/experiment.py lines 159-197)

Each `pipettes.yml` site discovered under a slice's storage path is
inspected inside a `try` block: the `Experiment` is loaded, its raw-data
modification time and slice timestamp are read, and the slice module's
finished-job record is looked up with
`finished_slices.get(slice_ts, None)` and tuple-unpacked — so a missing
record raises `TypeError` inside the same `try`.  Any exception counts
the site in `n_errors` and skips it; a record with `success is False`
is skipped silently; otherwise the job is recorded with dependency time
`max(raw_data_mtime, slice_mtime)`.

A site's inspection outcome is an input: `Except.error msg` when loading
the experiment raises, `Except.ok info` with the values the code reads
from it.  The slice module's `finished_jobs()` result is a lookup
function from slice timestamp to `(finished_time, success)`. -/

structure SiteInfo where
  timestamp : String
  slice_timestamp : String
  mtime : Nat
deriving Repr, DecidableEq

/-- `ready[key] = value` on an `OrderedDict`: update in place when the
key exists, else append. -/
def odInsert (m : List (String × Nat)) (k : String) (v : Nat) : List (String × Nat) :=
  if m.any (fun kv => kv.1 = k) then
    m.map (fun kv => if kv.1 = k then (k, v) else kv)
  else
    m ++ [(k, v)]

/-- One iteration of the `for yml_path in ymls` loop, transforming the
`(ready, n_errors)` accumulator. -/
def readyStep (finished : String → Option (Nat × Bool))
    (acc : List (String × Nat) × Nat) (site : Except String SiteInfo) :
    List (String × Nat) × Nat :=
  match site with
  | Except.error _ => (acc.1, acc.2 + 1)
  | Except.ok info =>
    match finished info.slice_timestamp with
    | none => (acc.1, acc.2 + 1)
    | some (t, success) =>
      if success then (odInsert acc.1 info.timestamp (max info.mtime t), acc.2)
      else (acc.1, acc.2)

def ready_jobs_go (finished : String → Option (Nat × Bool)) :
    List (Except String SiteInfo) → List (String × Nat) × Nat →
    List (String × Nat) × Nat
  | [], acc => acc
  | site :: rest, acc => ready_jobs_go finished rest (readyStep finished acc site)

/-- `ExperimentPipelineModule.ready_jobs`: fold the inspection loop over
the discovered sites, returning the ordered `job_id -> dependency_time`
mapping together with `n_errors`. -/
def ready_jobs (finished : String → Option (Nat × Bool))
    (sites : List (Except String SiteInfo)) : List (String × Nat) × Nat :=
  ready_jobs_go finished sites ([], 0)

/-- The inspection result a single qualifying site contributes: its job
id and dependency time when it loads and its slice record is a success,
`none` otherwise. -/
def qualifies (finished : String → Option (Nat × Bool))
    (site : Except String SiteInfo) : Option (String × Nat) :=
  match site with
  | Except.error _ => none
  | Except.ok info =>
    match finished info.slice_timestamp with
    | none => none
    | some (t, success) =>
      if success then some (info.timestamp, max info.mtime t) else none

/-- The timestamps of the sites that loaded successfully. -/
def okSites (sites : List (Except String SiteInfo)) : List SiteInfo :=
  sites.filterMap (fun site =>
    match site with
    | Except.ok info => some info
    | Except.error _ => none)

/-! ## dependent_job_ids (pipeline/multipatch/experiment.py lines 146-157)

`Experiment` rows carry `acq_timestamp` (the job id) and a foreign key
to their `Slice` row; `Slice` rows carry `acq_timestamp`.  The method
raises `ValueError` unless the given module is among the dependencies,
then returns
`session.query(Experiment.acq_timestamp).join(Slice)
       .filter(Slice.acq_timestamp.in_(job_ids))`. -/

structure SliceRec where
  id : Nat
  acq_timestamp : String
deriving Repr, DecidableEq

structure ExperimentRec where
  id : Nat
  slice_id : Nat
  acq_timestamp : String
deriving Repr, DecidableEq

def dependent_job_ids (deps : List String) (module : String)
    (expts : List ExperimentRec) (slices : List SliceRec)
    (job_ids : List String) : Except String (List String) :=
  if module ∈ deps then
    Except.ok (expts.flatMap (fun e =>
      slices.filterMap (fun s =>
        if e.slice_id = s.id ∧ s.acq_timestamp ∈ job_ids then
          some e.acq_timestamp
        else none)))
  else
    Except.error "module is not a dependency"

/-! # Theorems -/

/-! ## Engine / session manager lemmas -/

theorem dispose_engines_def (s : EngineState) :
    dispose_engines s =
      ⟨none, none, none,
       if s.engine_ro.isSome then false else s.smaker_ro,
       if s.engine_rw.isSome then false else s.smaker_rw,
       s.next_id⟩ := by
  simp only [dispose_engines]
  by_cases h1 : s.engine_ro.isSome <;> by_cases h2 : s.engine_rw.isSome <;>
    simp_all [Option.not_isSome_iff_eq_none]

theorem init_engines_def (h : Bool) (pid : Nat) (s : EngineState) :
    init_engines h pid s =
      { dispose_engines s with
        engine_ro := some s.next_id,
        engine_rw := if h then some (s.next_id + 1) else none,
        engine_pid := some pid,
        next_id := s.next_id + if h then 2 else 1 } := by
  simp only [init_engines]
  cases h <;> simp [dispose_engines_def]

theorem get_engines_ro_isSome (has_rw : Bool) (pid : Nat) (s : EngineState) :
    (get_engines has_rw pid s).1.1.isSome := by
  simp only [get_engines]
  split <;> split <;>
    simp_all [init_engines_def, dispose_engines_def, Option.isSome_iff_ne_none]

theorem get_engines_rw_none (pid : Nat) (s : EngineState) (h : s.engine_rw = none) :
    (get_engines false pid s).1.2 = none := by
  simp only [get_engines]
  split <;> split <;> simp_all [init_engines_def, dispose_engines_def]

/-- C1: on a pid mismatch `get_engines()` disposes the stored engines and
returns freshly constructed ones, distinct from the pre-fork engines
(and a read-write engine exists again whenever one is configured); on a
pid match the stored engines are returned and the state is untouched. -/
theorem get_engines_fork_safety (has_rw : Bool) (pid p0 : Nat) (s : EngineState)
    (hwf : s.wf) (hpid : s.engine_pid = some p0) :
    (pid ≠ p0 →
      (get_engines has_rw pid s).1.1.isSome ∧
      (get_engines has_rw pid s).1.1 ≠ s.engine_ro ∧
      (s.engine_rw.isSome → (get_engines has_rw pid s).1.2 ≠ s.engine_rw) ∧
      (has_rw = true → (get_engines has_rw pid s).1.2.isSome)) ∧
    (pid = p0 →
      (get_engines has_rw pid s).1 = (s.engine_ro, s.engine_rw) ∧
      (get_engines has_rw pid s).2 = s) := by
  obtain ⟨hro, hrw, hpidro⟩ := hwf
  constructor
  · intro hne
    have hcond : s.engine_pid ≠ some pid := by
      rw [hpid]; simp [Ne.symm hne]
    simp only [get_engines, if_pos hcond, dispose_engines_def, init_engines_def]
    refine ⟨by simp, ?_, ?_, ?_⟩
    · cases hq : s.engine_ro with
      | none => simp
      | some e =>
        have : e < s.next_id := hro e (by simp [hq])
        simp; omega
    · intro hsome
      cases hq : s.engine_rw with
      | none => simp [hq] at hsome
      | some e =>
        have : e < s.next_id := hrw e (by simp [hq])
        cases has_rw
        · simp
        · simp; omega
    · intro h; subst h; simp
  · intro heq
    subst heq
    have hcond : ¬ (s.engine_pid ≠ some pid) := by simp [hpid]
    have hro2 : ¬ (s.engine_ro = none) := by
      have := hpidro (by simp [hpid])
      simp [Option.isSome_iff_ne_none] at this
      exact this
    simp only [get_engines, if_neg hcond, if_neg hro2]
    exact ⟨trivial, trivial⟩

theorem get_engines_fork_safety_witness :
    (get_engines true 101 ⟨some 0, some 1, some 100, true, true, 2⟩).1.1.isSome ∧
    (get_engines true 101 ⟨some 0, some 1, some 100, true, true, 2⟩).1.1 ≠ some 0 ∧
    ((some 1 : Option Nat).isSome →
      (get_engines true 101 ⟨some 0, some 1, some 100, true, true, 2⟩).1.2 ≠ some 1) ∧
    (true = true →
      (get_engines true 101 ⟨some 0, some 1, some 100, true, true, 2⟩).1.2.isSome) :=
  (get_engines_fork_safety true 101 100 ⟨some 0, some 1, some 100, true, true, 2⟩
    (by decide) (by decide)).1 (by decide)

/-- C7: without configured write credentials a read-write session request
raises, and a read-only session on the very same post-failure state still
succeeds — the failure is fatal only to the calling operation. -/
theorem Session_no_write_access (pid : Nat) (s : EngineState)
    (h : s.engine_rw = none) :
    (Session false pid false s).1 = Except.error DBError.noWriteAccess ∧
    ∃ e : Nat, (Session false pid true ((Session false pid false s).2)).1 =
      Except.ok (some e, true) := by
  have hrw := get_engines_rw_none pid s h
  have hfail : Session false pid false s =
      (Except.error DBError.noWriteAccess, (get_engines false pid s).2) := by
    simp only [Session, if_neg (by simp : ¬ (false = true))]
    rw [hrw]
  refine ⟨by rw [hfail], ?_⟩
  rw [hfail]
  have hro := get_engines_ro_isSome false pid ((get_engines false pid s).2)
  obtain ⟨e, he⟩ := Option.isSome_iff_exists.mp hro
  exact ⟨e, by simp [Session, he]⟩

theorem Session_no_write_access_witness :
    (Session false 7 false ⟨some 0, none, some 7, true, false, 1⟩).1 =
      Except.error DBError.noWriteAccess ∧
    ∃ e : Nat, (Session false 7 true
      ((Session false 7 false ⟨some 0, none, some 7, true, false, 1⟩).2)).1 =
      Except.ok (some e, true) :=
  Session_no_write_access 7 ⟨some 0, none, some 7, true, false, 1⟩ (by decide)

/-! ## TableGroup.create_tables -/

/-- C8: with no read-write engine, `create_tables` issues no DDL: it
verifies each declared table exists in the read-only database, raising an
error naming a missing table if any is absent and returning with an empty
DDL batch otherwise; with a read-write engine it creates all of the
group's tables in one batch in the declared order. -/
theorem create_tables_spec (schemas existing : List String) :
    ((∀ k ∈ schemas, k ∈ existing) →
      TableGroup.create_tables schemas none existing = Except.ok []) ∧
    ((∃ k ∈ schemas, k ∉ existing) →
      ∃ m ∈ schemas, m ∉ existing ∧
        TableGroup.create_tables schemas none existing =
          Except.error (DBError.schemaMissing m)) ∧
    (∀ e : Nat, TableGroup.create_tables schemas (some e) existing =
      Except.ok schemas) := by
  refine ⟨?_, ?_, fun e => rfl⟩
  · intro hall
    have hfind : schemas.find? (fun k => !(existing.contains k)) = none := by
      rw [List.find?_eq_none]
      intro k hk
      simp [hall k hk]
    unfold TableGroup.create_tables
    rw [hfind]
  · intro ⟨k, hk, hnk⟩
    have hsome : (schemas.find? (fun k => !(existing.contains k))).isSome := by
      rw [List.find?_isSome]
      exact ⟨k, hk, by simpa using hnk⟩
    obtain ⟨m, hm⟩ := Option.isSome_iff_exists.mp hsome
    refine ⟨m, List.mem_of_find?_eq_some hm, ?_, ?_⟩
    · have := List.find?_some hm
      simpa using this
    · unfold TableGroup.create_tables
      rw [hm]

theorem create_tables_spec_witness :
    ∃ m ∈ ["experiment", "electrode", "cell", "pair"], m ∉ ["experiment"] ∧
      TableGroup.create_tables ["experiment", "electrode", "cell", "pair"] none
        ["experiment"] = Except.error (DBError.schemaMissing m) :=
  (create_tables_spec ["experiment", "electrode", "cell", "pair"] ["experiment"]).2.1
    ⟨"electrode", by decide, by decide⟩

/-! ## Streaming bulk exporter -/

theorem tableMaxId_append_single (l : List (Nat × Nat)) (x : Nat × Nat) :
    tableMaxId (l ++ [x]) = some (match tableMaxId l with
      | none => x.1
      | some v => max v x.1) := by
  simp only [tableMaxId, List.foldl_append, List.foldl_cons, List.foldl_nil]
  cases l.foldl (fun m r =>
    match m with
    | none => some r.1
    | some v => some (max v r.1)) none <;> rfl

theorem srcTable_succ (n : Nat) :
    srcTable (n + 1) = srcTable n ++ [(n + 1, n + 1)] := by
  simp [srcTable, List.range_succ]

theorem tableMaxId_srcTable (n : Nat) :
    tableMaxId (srcTable (n + 1)) = some (n + 1) := by
  induction n with
  | zero => rfl
  | succ m ih =>
    rw [srcTable_succ, tableMaxId_append_single, ih]
    simp [Nat.max_eq_right (by omega : m + 1 ≤ m + 2)]

theorem srcTable_sorted (n : Nat) :
    (srcTable n).Pairwise (fun r s => r.1 ≤ s.1) := by
  unfold srcTable
  rw [List.pairwise_map]
  exact (List.pairwise_lt_range n).imp (fun h => by omega)

theorem srcTable_id_le (n : Nat) : ∀ r ∈ srcTable n, r.1 ≤ n := by
  intro r hr
  simp only [srcTable, List.mem_map, List.mem_range] at hr
  obtain ⟨i, hi, rfl⟩ := hr
  simpa using hi

theorem filter_range_split (rows : List (Nat × Nat)) (a b c : Nat)
    (hab : a ≤ b) (hbc : b ≤ c)
    (hs : rows.Pairwise (fun r s => r.1 ≤ s.1)) :
    rows.filter (fun r => a ≤ r.1 && r.1 < b) ++
      rows.filter (fun r => b ≤ r.1 && r.1 < c) =
      rows.filter (fun r => a ≤ r.1 && r.1 < c) := by
  induction rows with
  | nil => simp
  | cons h t ih =>
    rw [List.pairwise_cons] at hs
    obtain ⟨hhead, hsort⟩ := hs
    by_cases ha : a ≤ h.1
    · by_cases hb : h.1 < b
      · rw [List.filter_cons_of_pos (by simp; omega),
          List.filter_cons_of_neg (by simp; omega),
          List.filter_cons_of_pos (by simp; omega),
          List.cons_append, ih hsort]
      · by_cases hc2 : h.1 < c
        · have hft : t.filter (fun r => a ≤ r.1 && r.1 < b) = [] := by
            rw [List.filter_eq_nil_iff]
            intro r hr
            have : h.1 ≤ r.1 := hhead r hr
            simp; omega
          have hft0 : List.filter (fun r => a ≤ r.1 && r.1 < b) (h :: t) = [] := by
            rw [List.filter_cons_of_neg, hft]
            simp; omega
          rw [hft0]
          have := ih hsort
          rw [hft] at this
          simp only [List.nil_append] at this ⊢
          rw [List.filter_cons_of_pos (by simp; omega),
            List.filter_cons_of_pos (by simp; omega), this]
        · rw [List.filter_cons_of_neg (by simp; omega),
            List.filter_cons_of_neg (by simp; omega),
            List.filter_cons_of_neg (by simp; omega)]
          exact ih hsort
    · rw [List.filter_cons_of_neg (by simp; omega),
        List.filter_cons_of_neg (by simp; omega),
        List.filter_cons_of_neg (by simp; omega)]
      exact ih hsort

theorem filter_range_all (rows : List (Nat × Nat)) (c : Nat)
    (hub : ∀ r ∈ rows, r.1 < c) :
    rows.filter (fun r => 0 ≤ r.1 && r.1 < c) = rows := by
  rw [List.filter_eq_self]
  intro r hr
  simp [hub r hr]

theorem chunkStarts_2500_1000 : chunkStarts 2500 1000 = [0, 1000, 2000] := by decide

/-- C4: exporting the 2500-row table with chunk size 1000 issues the
max-id query exactly once followed by exactly 3 range queries over
[0,1000), [1000,2000), [2000,3000), and the consumer receives all 2500
rows, row-for-row equal to the source. -/
theorem bake_sqlite_2500_scenario :
    TableReadThread.ops srcTable2500 1000 =
      [DBOp.maxId, DBOp.range 0 1000, DBOp.range 1000 2000, DBOp.range 2000 3000] ∧
    (TableReadThread.ops srcTable2500 1000).count DBOp.maxId = 1 ∧
    TableReadThread.iterOutput srcTable2500 1000 = some srcTable2500 ∧
    srcTable2500.length = 2500 := by
  have hmax : tableMaxId srcTable2500 = some 2500 := tableMaxId_srcTable 2499
  have hops : TableReadThread.ops srcTable2500 1000 =
      [DBOp.maxId, DBOp.range 0 1000, DBOp.range 1000 2000, DBOp.range 2000 3000] := by
    simp only [TableReadThread.ops, hmax, chunkStarts_2500_1000]
    rfl
  have hsorted := srcTable_sorted 2500
  have h01 : rangeQuery srcTable2500 0 1000 ++ rangeQuery srcTable2500 1000 1000 =
      srcTable2500.filter (fun r => 0 ≤ r.1 && r.1 < 2000) := by
    have := filter_range_split srcTable2500 0 1000 2000 (by omega) (by omega) hsorted
    simpa [rangeQuery] using this
  have h02 : srcTable2500.filter (fun r => 0 ≤ r.1 && r.1 < 2000) ++
      rangeQuery srcTable2500 2000 1000 =
      srcTable2500.filter (fun r => 0 ≤ r.1 && r.1 < 3000) := by
    have := filter_range_split srcTable2500 0 2000 3000 (by omega) (by omega) hsorted
    simpa [rangeQuery] using this
  have hall : srcTable2500.filter (fun r => 0 ≤ r.1 && r.1 < 3000) = srcTable2500 :=
    filter_range_all srcTable2500 3000
      (fun r hr => by have := srcTable_id_le 2500 r hr; omega)
  have hiter : TableReadThread.iterOutput srcTable2500 1000 = some srcTable2500 := by
    simp only [TableReadThread.iterOutput, hmax, chunkStarts_2500_1000]
    simp only [List.map_cons, List.map_nil, List.flatten_cons, List.flatten_nil,
      List.append_nil, ← List.append_assoc]
    rw [h01, h02, hall]
  refine ⟨hops, by rw [hops]; decide, hiter, by simp [srcTable2500, srcTable]⟩

/-- C5: when the maximum id is a positive exact multiple k*c of the
chunk size c, the last chunk query filters id in [k*c - c, k*c), and no
row the iterator yields carries the maximum id — the exported copy is
missing the max-id row. -/
theorem chunk_loop_drops_max_row (rows : List (Nat × Nat)) (c k : Nat)
    (hc : 0 < c) (hk : 0 < k) (hmax : tableMaxId rows = some (k * c)) :
    (chunkStarts (k * c) c).getLast? = some (k * c - c) ∧
    ∃ out, TableReadThread.iterOutput rows c = some out ∧
      ∀ r ∈ out, r.1 ≠ k * c := by
  have hdiv : (k * c + c - 1) / c = k := by
    have h1 : k * c + c - 1 = c * k + (c - 1) := by
      have : c * k = k * c := Nat.mul_comm c k
      omega
    rw [h1, Nat.mul_add_div hc, Nat.div_eq_of_lt (by omega)]
    omega
  have hcs : chunkStarts (k * c) c = (List.range k).map (· * c) := by
    rw [chunkStarts, hdiv]
  constructor
  · rw [hcs]
    obtain ⟨k', rfl⟩ : ∃ k', k = k' + 1 := ⟨k - 1, by omega⟩
    rw [List.range_succ, List.map_append]
    simp [Nat.succ_mul]
  · refine ⟨_, by rw [TableReadThread.iterOutput, hmax], ?_⟩
    intro r hr
    rw [List.mem_flatten] at hr
    obtain ⟨batch, hbatch, hrb⟩ := hr
    rw [List.mem_map] at hbatch
    obtain ⟨i, hi, rfl⟩ := hbatch
    rw [hcs, List.mem_map] at hi
    obtain ⟨j, hj, rfl⟩ := hi
    rw [List.mem_range] at hj
    rw [rangeQuery, List.mem_filter] at hrb
    have hlt : r.1 < j * c + c := by
      have := hrb.2
      simp at this
      omega
    have : j * c + c ≤ k * c := by
      have : (j + 1) * c ≤ k * c := Nat.mul_le_mul_right c (by omega)
      calc j * c + c = (j + 1) * c := by rw [Nat.succ_mul]
        _ ≤ k * c := this
    omega

theorem chunk_loop_drops_max_row_witness :
    (chunkStarts (2 * 1) 1).getLast? = some (2 * 1 - 1) ∧
    ∃ out, TableReadThread.iterOutput [(1, 10), (2, 20)] 1 = some out ∧
      ∀ r ∈ out, r.1 ≠ 2 * 1 :=
  chunk_loop_drops_max_row [(1, 10), (2, 20)] 1 2
    (by decide) (by decide) (by decide)

/-- C10: on an empty table the constructor's max-id query returns None,
`run` raises on `range(0, None, chunksize)` before enqueuing any batch
or the end-of-stream sentinel, and the consumer loop never receives the
sentinel, hence never terminates normally. -/
theorem empty_table_export_hangs (c : Nat) :
    tableMaxId [] = none ∧
    TableReadThread.run [] c = ([], false) ∧
    consumerTerminates (TableReadThread.run [] c).1 = false :=
  ⟨rfl, rfl, rfl⟩

/-! ## Export queue backpressure -/

/-- C6: in every state reachable by interleaving the producer's blocking
puts and the consumer's gets, the capacity-5 queue holds at most 5
unconsumed batches — however many batches the producer has pending — and
from a full queue the only enabled step leaves 4 queued, i.e. the
producer is blocked until the consumer pops. -/
theorem export_backpressure (n : Nat) :
    (∀ s : ExportState, ExportReachable 5 ⟨n, 0, 0⟩ s → s.queued ≤ 5) ∧
    (∀ s t : ExportState, s.queued = 5 → ExportStep 5 s t → t.queued = 4) := by
  constructor
  · intro s hreach
    induction hreach with
    | refl => simp
    | step hr hstep ih =>
      cases hstep with
      | put hp hq => simp; omega
      | get hq => simp; omega
  · intro s t hfull hstep
    cases hstep with
    | put hp hq => omega
    | get hq => simp [hfull]

theorem export_backpressure_witness :
    (⟨100, 0, 0⟩ : ExportState).queued ≤ 5 ∧
    (⟨1, 4, 1⟩ : ExportState).queued = 4 :=
  ⟨(export_backpressure 100).1 ⟨100, 0, 0⟩ ExportReachable.refl,
   (export_backpressure 100).2 ⟨1, 5, 0⟩ ⟨1, 4, 1⟩ rfl
     (ExportStep.get ⟨1, 5, 0⟩ (by decide))⟩

/-! ## Cascading invalidation -/

/-- C9: when the queried module is among the dependencies,
`dependent_job_ids` returns exactly the experiment job ids whose record
joins (via the slice foreign key) to a slice record whose timestamp is
in the changed job ids; otherwise it raises. -/
theorem dependent_job_ids_spec (deps : List String) (module : String)
    (expts : List ExperimentRec) (slices : List SliceRec)
    (job_ids : List String) :
    (module ∈ deps →
      ∃ res, dependent_job_ids deps module expts slices job_ids = Except.ok res ∧
        ∀ ts, ts ∈ res ↔ ∃ e ∈ expts, ∃ s ∈ slices,
          e.slice_id = s.id ∧ s.acq_timestamp ∈ job_ids ∧ e.acq_timestamp = ts) ∧
    (module ∉ deps →
      ∃ msg, dependent_job_ids deps module expts slices job_ids =
        Except.error msg) := by
  constructor
  · intro hdep
    refine ⟨_, by rw [dependent_job_ids, if_pos hdep], ?_⟩
    intro ts
    simp only [List.mem_flatMap, List.mem_filterMap]
    constructor
    · rintro ⟨e, he, s, hs, hits⟩
      by_cases hcond : e.slice_id = s.id ∧ s.acq_timestamp ∈ job_ids
      · rw [if_pos hcond] at hits
        exact ⟨e, he, s, hs, hcond.1, hcond.2, Option.some_inj.mp hits⟩
      · rw [if_neg hcond] at hits
        exact absurd hits (by simp)
    · rintro ⟨e, he, s, hs, hid, hts, rfl⟩
      exact ⟨e, he, s, hs, by rw [if_pos ⟨hid, hts⟩]⟩
  · intro hdep
    exact ⟨_, by rw [dependent_job_ids, if_neg hdep]⟩

theorem dependent_job_ids_spec_witness :
    (∃ res, dependent_job_ids ["slice"] "slice"
        [⟨1, 5, "2020-01-01_0"⟩] [⟨5, "2020-01-01_0"⟩] ["2020-01-01_0"] =
        Except.ok res ∧
      ∀ ts, ts ∈ res ↔ ∃ e ∈ [(⟨1, 5, "2020-01-01_0"⟩ : ExperimentRec)],
        ∃ s ∈ [(⟨5, "2020-01-01_0"⟩ : SliceRec)],
          e.slice_id = s.id ∧ s.acq_timestamp ∈ ["2020-01-01_0"] ∧
          e.acq_timestamp = ts) ∧
    ∃ msg, dependent_job_ids ["slice"] "morphology"
        [⟨1, 5, "2020-01-01_0"⟩] [⟨5, "2020-01-01_0"⟩] ["2020-01-01_0"] =
        Except.error msg :=
  ⟨(dependent_job_ids_spec ["slice"] "slice" [⟨1, 5, "2020-01-01_0"⟩]
      [⟨5, "2020-01-01_0"⟩] ["2020-01-01_0"]).1 (by decide),
   (dependent_job_ids_spec ["slice"] "morphology" [⟨1, 5, "2020-01-01_0"⟩]
      [⟨5, "2020-01-01_0"⟩] ["2020-01-01_0"]).2 (by decide)⟩


/-! ## Readiness computation -/

theorem odInsert_of_not_mem (m : List (String × Nat)) (k : String) (v : Nat)
    (h : ∀ p ∈ m, p.1 ≠ k) : odInsert m k v = m ++ [(k, v)] := by
  rw [odInsert, if_neg]
  simp only [List.any_eq_true, not_exists, not_and]
  intro p hp
  simpa using h p hp

theorem ready_jobs_go_append (finished : String → Option (Nat × Bool))
    (l1 l2 : List (Except String SiteInfo)) (acc : List (String × Nat) × Nat) :
    ready_jobs_go finished (l1 ++ l2) acc =
      ready_jobs_go finished l2 (ready_jobs_go finished l1 acc) := by
  induction l1 generalizing acc with
  | nil => rfl
  | cons site rest ih => simp [ready_jobs_go, ih]

theorem ready_jobs_go_shift (finished : String → Option (Nat × Bool))
    (l : List (Except String SiteInfo)) (m : List (String × Nat)) (n : Nat) :
    ready_jobs_go finished l (m, n) =
      ((ready_jobs_go finished l (m, 0)).1,
        n + (ready_jobs_go finished l (m, 0)).2) := by
  induction l generalizing m n with
  | nil => simp [ready_jobs_go]
  | cons site rest ih =>
    cases site with
    | error msg =>
      simp only [ready_jobs_go, readyStep]
      rw [ih m (n + 1), ih m 1]
      simp
      omega
    | ok info =>
      cases hf : finished info.slice_timestamp with
      | none =>
        simp only [ready_jobs_go, readyStep, hf]
        rw [ih m (n + 1), ih m 1]
        simp
        omega
      | some p =>
        obtain ⟨t, success⟩ := p
        cases success with
        | true =>
          simp only [ready_jobs_go, readyStep, hf, if_pos rfl, if_true]
          rw [ih (odInsert m info.timestamp (max info.mtime t)) n,
            ih (odInsert m info.timestamp (max info.mtime t)) 0]
        | false =>
          simp only [ready_jobs_go, readyStep, hf, if_neg Bool.false_ne_true]
          rw [ih m n, ih m 0]

theorem qualifies_eq_some (finished : String → Option (Nat × Bool))
    (site : Except String SiteInfo) (k : String) (v : Nat) :
    qualifies finished site = some (k, v) ↔
      ∃ info t, site = Except.ok info ∧ info.timestamp = k ∧
        finished info.slice_timestamp = some (t, true) ∧ v = max info.mtime t := by
  cases site with
  | error msg => simp [qualifies]
  | ok info =>
    cases hf : finished info.slice_timestamp with
    | none => simp [qualifies, hf]
    | some p =>
      obtain ⟨t, success⟩ := p
      cases success with
      | false => simp [qualifies, hf]
      | true =>
        simp only [qualifies, hf, if_pos rfl, if_true, Option.some_inj,
          Prod.mk.injEq, Except.ok.injEq]
        constructor
        · rintro ⟨rfl, rfl⟩
          exact ⟨info, t, rfl, rfl, hf, rfl⟩
        · rintro ⟨info', t', heq, hts, hf', hv⟩
          subst heq
          rw [hf] at hf'
          obtain ⟨rfl, -⟩ := Prod.mk.injEq .. ▸ (Option.some_inj.mp hf')
          exact ⟨hts, hv.symm⟩

theorem ready_jobs_go_filterMap (finished : String → Option (Nat × Bool))
    (l : List (Except String SiteInfo)) (acc : List (String × Nat) × Nat)
    (hnd : ((l.filterMap (qualifies finished)).map Prod.fst).Nodup)
    (hdisj : ∀ p ∈ acc.1, ∀ q ∈ l.filterMap (qualifies finished), p.1 ≠ q.1) :
    (ready_jobs_go finished l acc).1 = acc.1 ++ l.filterMap (qualifies finished) := by
  induction l generalizing acc with
  | nil => simp [ready_jobs_go]
  | cons site rest ih =>
    cases hq : qualifies finished site with
    | none =>
      rw [List.filterMap_cons_none hq] at hnd hdisj ⊢
      have hstep : (readyStep finished acc site).1 = acc.1 := by
        cases site with
        | error msg => rfl
        | ok info =>
          cases hf : finished info.slice_timestamp with
          | none => simp [readyStep, hf]
          | some p =>
            obtain ⟨t, success⟩ := p
            cases success with
            | true => simp [qualifies, hf] at hq
            | false => simp [readyStep, hf]
      rw [ready_jobs_go, ih (readyStep finished acc site) hnd
        (by rw [hstep]; exact hdisj), hstep]
    | some kv =>
      obtain ⟨k, v⟩ := kv
      obtain ⟨info, t, rfl, hts, hf, hv⟩ := (qualifies_eq_some finished site k v).mp hq
      rw [List.filterMap_cons_some hq] at hnd hdisj ⊢
      rw [List.map_cons] at hnd
      have hcons := List.nodup_cons.mp hnd
      have hknotin : ∀ q ∈ rest.filterMap (qualifies finished), k ≠ q.1 := by
        intro q hqmem hcontra
        have hfst : q.1 ∈ (rest.filterMap (qualifies finished)).map Prod.fst :=
          List.mem_map_of_mem Prod.fst hqmem
        exact hcons.1 (hcontra ▸ hfst)
      have hstep : readyStep finished acc (Except.ok info) =
          (acc.1 ++ [(k, v)], acc.2) := by
        simp only [readyStep, hf, if_pos rfl, if_true]
        rw [hts, hv, odInsert_of_not_mem]
        intro p hp
        exact hdisj p hp (k, v) (List.mem_cons_self _ _)
      rw [ready_jobs_go, hstep, ih (acc.1 ++ [(k, v)], acc.2) hcons.2 ?_]
      · simp
      · intro p hp q hqmem
        rcases List.mem_append.mp hp with hp1 | hp2
        · exact hdisj p hp1 q (List.mem_cons_of_mem _ hqmem)
        · have : p = (k, v) := by simpa using hp2
          rw [this]
          exact hknotin q hqmem

theorem mem_okSites (sites : List (Except String SiteInfo)) (info : SiteInfo) :
    info ∈ okSites sites ↔ Except.ok info ∈ sites := by
  simp only [okSites, List.mem_filterMap]
  constructor
  · rintro ⟨site, hs, he⟩
    cases site with
    | ok i => simp only [Option.some_inj] at he; exact he ▸ hs
    | error msg => simp at he
  · intro h
    exact ⟨Except.ok info, h, rfl⟩

theorem qualifies_fst_sublist (finished : String → Option (Nat × Bool))
    (sites : List (Except String SiteInfo)) :
    ((sites.filterMap (qualifies finished)).map Prod.fst).Sublist
      ((okSites sites).map SiteInfo.timestamp) := by
  induction sites with
  | nil => simp
  | cons site rest ih =>
    cases site with
    | error msg =>
      rw [show okSites (Except.error msg :: rest) = okSites rest from rfl,
        List.filterMap_cons_none (show qualifies finished (Except.error msg) = none from rfl)]
      exact ih
    | ok info =>
      rw [show okSites (Except.ok info :: rest) = info :: okSites rest from rfl,
        List.map_cons]
      cases hq : qualifies finished (Except.ok info) with
      | none =>
        rw [List.filterMap_cons_none hq]
        exact ih.cons _
      | some kv =>
        obtain ⟨k, v⟩ := kv
        obtain ⟨info', t, heq, hts, hf, hv⟩ :=
          (qualifies_eq_some finished (Except.ok info) k v).mp hq
        obtain rfl : info = info' := by
          simpa using heq
        rw [List.filterMap_cons_some hq, List.map_cons]
        rw [show (k, v).1 = info.timestamp from hts.symm]
        exact ih.cons₂ _

theorem ready_jobs_eq_filterMap (finished : String → Option (Nat × Bool))
    (sites : List (Except String SiteInfo))
    (hnd : ((okSites sites).map SiteInfo.timestamp).Nodup) :
    (ready_jobs finished sites).1 = sites.filterMap (qualifies finished) := by
  rw [ready_jobs, ready_jobs_go_filterMap finished sites ([], 0)
    ((qualifies_fst_sublist finished sites).nodup hnd)
    (by intro p hp; simp at hp)]
  simp

/-- C2: assuming loadable sites carry distinct experiment timestamps, a
job id appears in the `ready_jobs` mapping iff some discovered site with
that timestamp loads successfully and the slice module has a success
record for its slice timestamp; and the value reported for such a job is
exactly max(raw-data mtime, slice finished_time). -/
theorem ready_jobs_spec (finished : String → Option (Nat × Bool))
    (sites : List (Except String SiteInfo))
    (hnd : ((okSites sites).map SiteInfo.timestamp).Nodup) :
    (∀ ts : String,
      (∃ v, (ts, v) ∈ (ready_jobs finished sites).1) ↔
        (∃ info, Except.ok info ∈ sites ∧ info.timestamp = ts ∧
          ∃ t, finished info.slice_timestamp = some (t, true))) ∧
    (∀ info t, Except.ok info ∈ sites →
      finished info.slice_timestamp = some (t, true) →
        (info.timestamp, max info.mtime t) ∈ (ready_jobs finished sites).1 ∧
        ∀ v, (info.timestamp, v) ∈ (ready_jobs finished sites).1 →
          v = max info.mtime t) := by
  have hmap := ready_jobs_eq_filterMap finished sites hnd
  have hmem : ∀ k v, (k, v) ∈ (ready_jobs finished sites).1 ↔
      ∃ info t, Except.ok info ∈ sites ∧ info.timestamp = k ∧
        finished info.slice_timestamp = some (t, true) ∧ v = max info.mtime t := by
    intro k v
    rw [hmap, List.mem_filterMap]
    constructor
    · rintro ⟨site, hs, hq⟩
      obtain ⟨info, t, rfl, hts, hf, hv⟩ := (qualifies_eq_some finished site k v).mp hq
      exact ⟨info, t, hs, hts, hf, hv⟩
    · rintro ⟨info, t, hs, hts, hf, hv⟩
      exact ⟨Except.ok info, hs,
        (qualifies_eq_some finished (Except.ok info) k v).mpr ⟨info, t, rfl, hts, hf, hv⟩⟩
  constructor
  · intro ts
    constructor
    · rintro ⟨v, hv⟩
      obtain ⟨info, t, hs, hts, hf, -⟩ := (hmem ts v).mp hv
      exact ⟨info, hs, hts, t, hf⟩
    · rintro ⟨info, hs, hts, t, hf⟩
      exact ⟨max info.mtime t, (hmem ts (max info.mtime t)).mpr
        ⟨info, t, hs, hts, hf, rfl⟩⟩
  · intro info t hs hf
    refine ⟨(hmem info.timestamp (max info.mtime t)).mpr
      ⟨info, t, hs, rfl, hf, rfl⟩, ?_⟩
    intro v hv
    obtain ⟨info', t', hs', hts', hf', hv'⟩ := (hmem info.timestamp v).mp hv
    have hinfo : info' = info := by
      have h1 : info ∈ okSites sites := (mem_okSites sites info).mpr hs
      have h2 : info' ∈ okSites sites := (mem_okSites sites info').mpr hs'
      exact List.inj_on_of_nodup_map hnd h2 h1 (by rw [hts'])
    subst hinfo
    rw [hf] at hf'
    have ht : t' = t := (Prod.ext_iff.mp (Option.some_inj.mp hf')).1.symm
    rw [hv', ht]

theorem ready_jobs_spec_witness :
    ((⟨"2020-01-01_0", "s1", 900⟩ : SiteInfo).timestamp, max 900 1000) ∈
      (ready_jobs
        (fun ts => if ts = "s1" then some (1000, true) else none)
        [Except.ok ⟨"2020-01-01_0", "s1", 900⟩, Except.error "load failure"]).1 :=
  ((ready_jobs_spec
      (fun ts => if ts = "s1" then some (1000, true) else none)
      [Except.ok ⟨"2020-01-01_0", "s1", 900⟩, Except.error "load failure"]
      (by decide)).2
    ⟨"2020-01-01_0", "s1", 900⟩ 1000 (List.mem_cons_self _ _) (by decide)).1

/-- C3: a site whose inspection raises is counted and excluded without
aborting the loop: `ready_jobs` on a list containing a failing candidate
returns exactly the mapping computed from the remaining candidates, with
the error count larger by one. -/
theorem ready_jobs_error_isolation (finished : String → Option (Nat × Bool))
    (l1 l2 : List (Except String SiteInfo)) (msg : String) :
    (ready_jobs finished (l1 ++ Except.error msg :: l2)).1 =
      (ready_jobs finished (l1 ++ l2)).1 ∧
    (ready_jobs finished (l1 ++ Except.error msg :: l2)).2 =
      (ready_jobs finished (l1 ++ l2)).2 + 1 := by
  rw [ready_jobs, ready_jobs, ready_jobs_go_append, ready_jobs_go_append]
  set acc := ready_jobs_go finished l1 ([], 0) with hacc
  obtain ⟨m, n⟩ := acc
  show (ready_jobs_go finished (Except.error msg :: l2) (m, n)).1 =
      (ready_jobs_go finished l2 (m, n)).1 ∧ _
  rw [show ready_jobs_go finished (Except.error msg :: l2) (m, n) =
      ready_jobs_go finished l2 (m, n + 1) from rfl]
  rw [ready_jobs_go_shift finished l2 m (n + 1), ready_jobs_go_shift finished l2 m n]
  exact ⟨rfl, by omega⟩
